import Mathlib

/-!
Verification development for the websig-project GIS processing pipeline
(`scripts/process_data.py` together with `scripts/config.py`).

The pipeline processes one layer at a time: check the source file, back up
the previous output, load, validate/repair geometries, reproject, simplify
(reporting a vertex-reduction percentage), clean attributes, export to
GeoJSON, then round the serialized coordinates in a post-pass.

The Lean definitions below are a shallow embedding of the functions of
`process_data.py` that the verified properties concern; machine floats are
modelled by rationals, Python exceptions by `Except`, and calls into
external geometry libraries are either parameters of the embedding or
modelled definitions flagged as such in their doc comments.
-/

namespace WebSig

/-! ## Serialized JSON coordinate trees (for `round_coords`) -/

/-- A node of the serialized coordinate structure handled by `round_coords`:
either a number (a leaf coordinate, modelled as a rational) or an array of
such nodes. -/
inductive JVal where
  | num (q : ℚ)
  | arr (elems : List JVal)

/-- Round-half-to-even of a rational to an integer, the tie-breaking rule
Python's built-in `round` uses. -/
def roundHalfEven (q : ℚ) : ℤ :=
  if q - ⌊q⌋ < 1/2 then ⌊q⌋
  else if 1/2 < q - ⌊q⌋ then ⌊q⌋ + 1
  else if Even ⌊q⌋ then ⌊q⌋ else ⌊q⌋ + 1

/-- Python's `round(c, p)`: round to `p` decimal places, ties to even.
Floats are modelled by rationals. -/
def pyRound (p : ℕ) (q : ℚ) : ℚ :=
  (roundHalfEven (q * 10 ^ p) : ℚ) / 10 ^ p

/-- `PRECISION` from `config.py`. -/
def PRECISION : ℕ := 6

/-- The second branch of `round_coords`: `[round(c, PRECISION) for c in coords]`.
Taken when `coords[0]` is not a list; Python's `round` raises `TypeError`
if some later element is itself a list. -/
def roundNums : List JVal → Except String (List JVal)
  | [] => .ok []
  | .num q :: xs => (roundNums xs).map (fun ys => JVal.num (pyRound PRECISION q) :: ys)
  | .arr _ :: _ => .error "TypeError: type list doesn't define __round__ method"

mutual

/-- `round_coords(coords)` from `process_data.py` (lines 231-234):
```python
def round_coords(coords):
    if isinstance(coords[0], list):
        return [round_coords(c) for c in coords]
    return [round(c, PRECISION) for c in coords]
```
`coords[0]` raises `IndexError` on an empty list and `TypeError` when
`coords` is a bare number; both are modelled as `.error`. -/
def round_coords : JVal → Except String JVal
  | .num _ => .error "TypeError: float object is not subscriptable"
  | .arr [] => .error "IndexError: list index out of range"
  | .arr (c :: cs) =>
    match c with
    | .arr _ => (roundCoordsList (c :: cs)).map JVal.arr
    | .num _ => (roundNums (c :: cs)).map JVal.arr

/-- The list comprehension `[round_coords(c) for c in coords]`: the first
exception raised by an element aborts the whole comprehension. -/
def roundCoordsList : List JVal → Except String (List JVal)
  | [] => .ok []
  | x :: xs =>
    match round_coords x with
    | .error e => .error e
    | .ok y =>
      match roundCoordsList xs with
      | .error e => .error e
      | .ok ys => .ok (y :: ys)

end

mutual

/-- Structural equality of shape: same nesting structure and same arity at
every node, ignoring the numeric values at the leaves. -/
def sameShape : JVal → JVal → Bool
  | .num _, .num _ => true
  | .arr xs, .arr ys => sameShapeList xs ys
  | _, _ => false

/-- Elementwise shape equality of two coordinate arrays. -/
def sameShapeList : List JVal → List JVal → Bool
  | [], [] => true
  | x :: xs, y :: ys => sameShape x y && sameShapeList xs ys
  | _, _ => false

end

/-! ## Geometries and `count_vertices` -/

/-- A coordinate pair, modelled over the rationals. -/
abbrev Coord := ℚ × ℚ

/-- The shapely geometry variants the script handles, plus `other` for any
unsupported `geom_type` (the final `else` branch of `count_vertices`).
A `polygon` carries its exterior ring and its interior rings (holes); a
member of a `multiPolygon` is an (exterior, holes) pair. -/
inductive Geometry where
  | point (c : Coord)
  | multiPoint (pts : List Coord)
  | lineString (coords : List Coord)
  | multiLineString (lines : List (List Coord))
  | polygon (exterior : List Coord) (holes : List (List Coord))
  | multiPolygon (polys : List (List Coord × List (List Coord)))
  | other

/-- `count_vertices(geom)` from `process_data.py` (lines 116-152): `None`
counts 0; a `Polygon` counts only its exterior ring's coordinates; a
`MultiPolygon` sums the exterior counts; lines count their coordinates;
a `Point` counts 1; a `MultiPoint` counts its members; unknown types
count 0. -/
def count_vertices : Option Geometry → ℕ
  | none => 0
  | some g =>
    match g with
    | .polygon exterior _ => exterior.length
    | .multiPolygon polys => (polys.map (fun poly => poly.1.length)).sum
    | .lineString coords => coords.length
    | .multiLineString lines => (lines.map List.length).sum
    | .point _ => 1
    | .multiPoint pts => pts.length
    | .other => 0

/-! ## Backup manager (`backup_existing_file`) -/

/-- One pass of the stale-backup deletion loop of `backup_existing_file`
(lines 69-71): `for old_backup in backups[:-3]: old_backup.unlink()`.
`unlinkOk` models whether the filesystem deletion of a given archive
succeeds; the loop body has no exception handler, so the first failing
`unlink` raises out of the loop (modelled by `.error`). -/
def deleteStale (unlinkOk : ℕ → Bool) : List ℕ → Except ℕ Unit
  | [] => .ok ()
  | b :: rest => if unlinkOk b then deleteStale unlinkOk rest else .error b

/-- `backup_existing_file(output_path)` (lines 52-71), restricted to one
output stem.  Archives are identified by their timestamps (the sortable
`YYYYMMDD_HHMMSS` suffix is order-isomorphic to a natural number).  If the
output file does not exist the call is a no-op.  Otherwise the file is
copied to a new archive named by `ts`, the archive directory is globbed and
sorted, and every archive except the 3 most recent is unlinked, oldest
first.  On success the remaining archive set is returned; a failed unlink
raises. -/
def backup_existing_file (outputExists : Bool) (unlinkOk : ℕ → Bool) (ts : ℕ)
    (archives : List ℕ) : Except ℕ (List ℕ) :=
  if outputExists then
    let s := List.insertionSort (· ≤ ·) (ts :: archives)
    match deleteStale unlinkOk (s.take (s.length - 3)) with
    | .ok _ => .ok (s.drop (s.length - 3))
    | .error b => .error b
  else .ok archives

/-- One successful backup call (`unlink` always succeeding, output
present): the archive state it leaves behind. -/
def backupStep (t : ℕ) (a : List ℕ) : List ℕ :=
  match backup_existing_file true (fun _ => true) t a with
  | .ok l => l
  | .error _ => a

/-- Sequential backup calls on the same output path (`unlink` always
succeeding, output always present): the archive state after folding
`backup_existing_file` over the list of call timestamps. -/
def backupRun (tss : List ℕ) (init : List ℕ) : List ℕ :=
  tss.foldl (fun a t => backupStep t a) init

/-! ## Simplifier (modelled) -/

/-- Squared distance from `p` to the segment through `a` and `b` (to the
point `a` when the segment is degenerate), used by the Douglas–Peucker
split test.  Exact over ℚ. -/
def dist2 (a b p : Coord) : ℚ :=
  if a = b then (p.1 - a.1) ^ 2 + (p.2 - a.2) ^ 2
  else
    ((b.1 - a.1) * (a.2 - p.2) - (a.1 - p.1) * (b.2 - a.2)) ^ 2 /
      ((b.1 - a.1) ^ 2 + (b.2 - a.2) ^ 2)

/-- Select an element maximizing `f` from a list, returned with the
elements before and after it. -/
def selectFarthest (f : Coord → ℚ) : List Coord → Option (List Coord × Coord × List Coord)
  | [] => none
  | x :: xs =>
    match selectFarthest f xs with
    | none => some ([], x, [])
    | some (l1, p, l2) => if f x < f p then some (x :: l1, p, l2) else some ([], x, xs)

/-- Modelled from the spec: the geometry simplification itself is performed
by the external library call `gdf.geometry.simplify(SIMPLIFY_TOLERANCE,
preserve_topology=True)` (line 201), whose algorithm is not part of this
repository.  Per the spec's Simplifier contract ("reduces vertex count
under a tolerance while preserving topology", replacing each geometry with
a simplified version whose deviation is bounded by the tolerance), the
path-simplification is modelled as Douglas–Peucker: keep the endpoints,
find the interior point farthest from the chord, recurse on both halves if
it deviates by more than the tolerance and drop all interior points
otherwise.  Fuel (initially the list length, which bounds the recursion
depth) makes the recursion structural. -/
def dpGo (tol2 : ℚ) : ℕ → List Coord → List Coord
  | 0, pts => pts
  | fuel + 1, pts =>
    match pts with
    | [] => []
    | [p] => [p]
    | [p, q] => [p, q]
    | a :: c :: d :: tl =>
      let b := (c :: d :: tl).getLast (by simp)
      let mid := (c :: d :: tl).dropLast
      match selectFarthest (dist2 a b) mid with
      | none => [a, b]
      | some (l1, p, l2) =>
        if tol2 < dist2 a b p then
          dpGo tol2 fuel (a :: (l1 ++ [p])) ++ (dpGo tol2 fuel (p :: (l2 ++ [b]))).tail
        else [a, b]

/-- Douglas–Peucker on one coordinate path, comparing squared distances
against the squared tolerance. -/
def douglasPeucker (tol : ℚ) (pts : List Coord) : List Coord :=
  dpGo (tol * tol) pts.length pts

/-- Modelled from the spec: per-geometry action of the external
`simplify` call — simplify every coordinate path (line, polygon ring),
leave points untouched. -/
def simplifyGeometry (tol : ℚ) : Geometry → Geometry
  | .point c => .point c
  | .multiPoint pts => .multiPoint pts
  | .lineString coords => .lineString (douglasPeucker tol coords)
  | .multiLineString lines => .multiLineString (lines.map (douglasPeucker tol))
  | .polygon exterior holes =>
      .polygon (douglasPeucker tol exterior) (holes.map (douglasPeucker tol))
  | .multiPolygon polys =>
      .multiPolygon
        (polys.map (fun poly => (douglasPeucker tol poly.1, poly.2.map (douglasPeucker tol))))
  | .other => .other

/-- The simplification stage applied to the geometry column (line 201):
missing geometries stay missing. -/
def simplifyAll (tol : ℚ) (geoms : List (Option Geometry)) : List (Option Geometry) :=
  geoms.map (Option.map (simplifyGeometry tol))

/-! ## Geometry repair (`validate_and_fix_geometries`) -/

/-- `validate_and_fix_geometries(gdf)` (lines 75-86).  The validity test
(`gdf.is_valid`) and the zero-distance buffer (`.buffer(0)`) are external
shapely/GEOS calls, taken as parameters.  The code counts the invalid
geometries and, if any exist, assigns `gdf['geometry'].buffer(0)` to the
whole geometry column — i.e. the buffer is applied to every row, not just
the invalid ones. -/
def validate_and_fix_geometries (isValid : Geometry → Bool) (buffer0 : Geometry → Geometry)
    (gdf : List Geometry) : List Geometry :=
  let invalidCount := (gdf.filter (fun g => ¬ isValid g)).length
  if invalidCount > 0 then gdf.map buffer0 else gdf

/-! ## Attribute cleaner (`clean_attributes`) -/

/-- Python's `col.startswith('__')`: the name's first two characters are
underscores.  (Defined on the character list so that it evaluates inside
the kernel.) -/
def startsWithDunder (s : String) : Bool :=
  match s.data with
  | '_' :: '_' :: _ => true
  | _ => false

/-- The column-selection part of `clean_attributes(gdf)` (lines 90-102):
drop every column whose name starts with `__`, then, if `ATTRIBUTES_TO_KEEP`
is non-empty, keep `['geometry'] + [col for col in ATTRIBUTES_TO_KEEP if col
in gdf.columns]`.  (The remaining statements of the function convert
date-typed values to strings and NaN to None; they change cell values, not
the column set, and no verified claim concerns them.) -/
def clean_attributes (attributesToKeep : List String) (cols : List String) : List String :=
  let cols1 := cols.filter (fun col => ¬ startsWithDunder col)
  if attributesToKeep.isEmpty then cols1
  else "geometry" :: attributesToKeep.filter (fun col => col ∈ cols1)

/-! ## Reduction report and orchestration -/

/-- The reduction computation of `process_layer` (lines 207-211): the
percentage `100 * (1 - simplified / original)` is computed only under the
guard `original_vertices > 0`; otherwise the no-op message is logged,
modelled by `none`. -/
def reductionReport (original simplified : ℕ) : Option ℚ :=
  if original > 0 then some (100 * (1 - (simplified : ℚ) / (original : ℚ))) else none

/-- Aggregate vertex count of a feature collection's geometry column:
`gdf.geometry.apply(count_vertices).sum()` (lines 198 and 204). -/
def totalVertices (geoms : List (Option Geometry)) : ℕ :=
  (geoms.map count_vertices).sum

/-- The simplification stage's reduction report (lines 198-211): count
vertices, simplify, count again, then report the percentage only when the
original count is positive. -/
def simplifyReport (tol : ℚ) (geoms : List (Option Geometry)) : Option ℚ :=
  reductionReport (totalVertices geoms) (totalVertices (simplifyAll tol geoms))

/-- One layer job as `process_layer(layer_name, layer_config)` sees it:
whether the source file exists, and the outcome of the `try` block
(lines 174-253) — `.ok` if every stage ran to completion, `.error` if some
stage raised (the exception text is carried for the log). -/
structure LayerJob where
  sourceExists : Bool
  body : Except String Unit

/-- `process_layer` (lines 156-253) as a success predicate: a missing
source file returns `False` before the `try` block; any exception raised
inside the `try` block is caught by the `except` clause, logged, and
converted to `False`; otherwise the job returns `True`.  No exception
escapes the function. -/
def process_layer (job : LayerJob) : Bool :=
  if job.sourceExists then
    match job.body with
    | .ok _ => true
    | .error _ => false
  else false

/-- The success-counting loop of `main` (lines 269-275). -/
def successCount (jobs : List LayerJob) : ℕ :=
  jobs.foldl (fun n job => if process_layer job then n + 1 else n) 0

/-- The exit code of `main` (lines 283-288): 0 when every layer succeeded,
1 otherwise. -/
def mainExit (jobs : List LayerJob) : ℕ :=
  if successCount jobs = jobs.length then 0 else 1

/-- The post-serialization rounding loop of `process_layer` (lines 236-238):
for each feature, read `feature['geometry']` and replace its
`'coordinates'` entry by `round_coords` of it.  A feature's geometry is
either JSON `null` (then subscripting it with `['coordinates']` raises
`TypeError`) or carries a coordinates tree.  The loop runs inside the
job's `try` block, so any raise fails the job. -/
def roundPass (features : List (Option JVal)) : Except String (List (Option JVal)) :=
  features.mapM
    (fun geom =>
      match geom with
      | none => .error "TypeError: NoneType object is not subscriptable"
      | some coords => (round_coords coords).map some)

/-- The start of `process_layer`'s try block: `backup_existing_file` is its
first statement (line 176), so an exception raised there skips the rest of
the block (abstracted by `rest`) and reaches the except clause. -/
def layerBodyWithBackup (outputExists : Bool) (unlinkOk : ℕ → Bool) (ts : ℕ)
    (archives : List ℕ) (rest : Except String Unit) : Except String Unit :=
  match backup_existing_file outputExists unlinkOk ts archives with
  | .ok _ => rest
  | .error b => .error (toString b)

/-- A concrete instantiation of the external validity test (shapely's
`is_valid`): the bowtie polygon of the collection considered below is
invalid (its ring self-intersects), the other geometries there are valid.
Only its values on that collection's members matter. -/
def exIsValid : Geometry → Bool
  | .polygon _ _ => false
  | _ => true

/-- A concrete instantiation of the external `buffer(0)` call: GEOS's
zero-distance buffer of a (one-dimensional) LineString is an empty
polygon, and it returns area geometries unchanged here. -/
def exBuffer0 : Geometry → Geometry
  | .lineString _ => .polygon [] []
  | g => g

/-! ## Helper lemmas -/

theorem foldl_count (js : List LayerJob) :
    ∀ n : ℕ, js.foldl (fun m job => if process_layer job then m + 1 else m) n
      = n + js.foldl (fun m job => if process_layer job then m + 1 else m) 0 := by
  induction js with
  | nil => intro n; simp
  | cons j js ih =>
    intro n
    simp only [List.foldl_cons]
    rw [ih, ih (if process_layer j then 0 + 1 else 0)]
    by_cases h : process_layer j
    · simp [h]
      omega
    · simp [h]

theorem successCount_cons (j : LayerJob) (js : List LayerJob) :
    successCount (j :: js) = (if process_layer j then 1 else 0) + successCount js := by
  unfold successCount
  simp only [List.foldl_cons]
  rw [foldl_count]

theorem successCount_append (js1 js2 : List LayerJob) :
    successCount (js1 ++ js2) = successCount js1 + successCount js2 := by
  induction js1 with
  | nil => simp [successCount]
  | cons j js ih => simp only [List.cons_append, successCount_cons, ih]; omega

theorem successCount_le (js : List LayerJob) : successCount js ≤ js.length := by
  induction js with
  | nil => simp [successCount]
  | cons j js ih =>
    rw [successCount_cons]
    by_cases h : process_layer j <;> simp [h] <;> omega

theorem successCount_eq_length_iff (js : List LayerJob) :
    successCount js = js.length ↔ ∀ j ∈ js, process_layer j = true := by
  induction js with
  | nil => simp [successCount]
  | cons j js ih =>
    rw [successCount_cons]
    by_cases h : process_layer j
    · simp only [h, if_pos trivial, List.length_cons, List.mem_cons]
      constructor
      · intro he g hg
        rcases hg with hg | hg
        · rw [hg]; exact h
        · exact ih.mp (by omega) g hg
      · intro hall
        have := ih.mpr (fun g hg => hall g (Or.inr hg))
        omega
    · simp only [if_neg h, List.length_cons]
      constructor
      · intro he
        exfalso
        have := successCount_le js
        omega
      · intro hall
        exact absurd (hall j (List.mem_cons_self j js)) h

theorem deleteStale_true (l : List ℕ) : deleteStale (fun _ => true) l = .ok () := by
  induction l with
  | nil => rfl
  | cons b rest ih => simpa [deleteStale] using ih

theorem orderedInsert_of_forall_lt (a : ℕ) (l : List ℕ) (h : ∀ x ∈ l, x < a) :
    l.orderedInsert (· ≤ ·) a = l ++ [a] := by
  induction l with
  | nil => rfl
  | cons x xs ih =>
    have hx : ¬ a ≤ x := not_le_of_lt (h x (List.mem_cons_self x xs))
    simp only [List.orderedInsert, if_neg hx, List.cons_append]
    rw [ih (fun y hy => h y (List.mem_cons_of_mem x hy))]

theorem insertionSort_cons_max (t : ℕ) (l : List ℕ) (hs : List.Sorted (· ≤ ·) l)
    (h : ∀ x ∈ l, x < t) :
    List.insertionSort (· ≤ ·) (t :: l) = l ++ [t] := by
  have h1 : List.insertionSort (· ≤ ·) (t :: l)
      = (List.insertionSort (· ≤ ·) l).orderedInsert (· ≤ ·) t := rfl
  rw [h1, hs.insertionSort_eq, orderedInsert_of_forall_lt t l h]

theorem backup_ok_of_sorted (t : ℕ) (l : List ℕ) (hs : List.Sorted (· ≤ ·) l)
    (h : ∀ x ∈ l, x < t) :
    backup_existing_file true (fun _ => true) t l
      = .ok ((l ++ [t]).drop (l.length + 1 - 3)) := by
  unfold backup_existing_file
  rw [if_pos rfl]
  simp only [insertionSort_cons_max t l hs h, deleteStale_true]
  simp

theorem backupStep_ok (t : ℕ) (a res : List ℕ)
    (h : backup_existing_file true (fun _ => true) t a = .ok res) :
    backupStep t a = res := by
  unfold backupStep
  rw [h]

theorem backupRun_append (tss : List ℕ) (t : ℕ) (init : List ℕ) :
    backupRun (tss ++ [t]) init = backupStep t (backupRun tss init) := by
  unfold backupRun
  rw [List.foldl_append]
  rfl

theorem backupRun_strict (tss : List ℕ) (h : List.Pairwise (· < ·) tss) :
    backupRun tss [] = tss.drop (tss.length - 3) := by
  induction tss using List.reverseRecOn with
  | nil => rfl
  | append_singleton l t ih =>
    have hsplit := List.pairwise_append.mp h
    have hl : List.Pairwise (· < ·) l := hsplit.1
    have hlt : ∀ x ∈ l, x < t := fun x hx => hsplit.2.2 x hx t (List.mem_singleton.mpr rfl)
    have hrun : backupRun l [] = l.drop (l.length - 3) := ih hl
    have hs : List.Sorted (· ≤ ·) (l.drop (l.length - 3)) :=
      (hl.sublist (List.drop_sublist _ l)).imp le_of_lt
    have hlt' : ∀ x ∈ l.drop (l.length - 3), x < t := fun x hx => hlt x (List.mem_of_mem_drop hx)
    rw [backupRun_append, hrun,
      backupStep_ok t _ _ (backup_ok_of_sorted t _ hs hlt')]
    have hle : l.length - 3 ≤ l.length := Nat.sub_le _ _
    rw [List.length_drop]
    have hdr : (l ++ [t]).drop (l.length - 3) = l.drop (l.length - 3) ++ [t] :=
      List.drop_append_of_le_length hle
    rw [← hdr]
    rw [List.drop_drop]
    congr 1
    simp only [List.length_append, List.length_singleton]
    omega

theorem roundHalfEven_intCast (n : ℤ) : roundHalfEven (n : ℚ) = n := by
  unfold roundHalfEven
  rw [Int.floor_intCast, sub_self]
  norm_num

theorem pyRound_idem (p : ℕ) (q : ℚ) : pyRound p (pyRound p q) = pyRound p q := by
  unfold pyRound
  rw [div_mul_cancel₀ _ (by positivity : ((10 : ℚ) ^ p) ≠ 0), roundHalfEven_intCast]

theorem roundNums_ok_cons (q : ℚ) (xs ys : List JVal)
    (h : roundNums (.num q :: xs) = .ok ys) :
    ∃ ys', roundNums xs = .ok ys' ∧ ys = .num (pyRound PRECISION q) :: ys' := by
  simp only [roundNums] at h
  cases hr : roundNums xs with
  | error e => rw [hr] at h; simp [Except.map] at h
  | ok ys' =>
    rw [hr] at h
    simp only [Except.map, Except.ok.injEq] at h
    exact ⟨ys', rfl, h.symm⟩

theorem roundNums_idem (l : List JVal) : ∀ ys, roundNums l = .ok ys → roundNums ys = .ok ys := by
  induction l with
  | nil =>
    intro ys h
    simp only [roundNums, Except.ok.injEq] at h
    subst h
    rfl
  | cons x xs ih =>
    intro ys h
    cases x with
    | arr a => simp [roundNums] at h
    | num q =>
      obtain ⟨ys', hr, rfl⟩ := roundNums_ok_cons q xs ys h
      simp only [roundNums]
      rw [ih ys' hr]
      simp [Except.map, pyRound_idem]

theorem roundNums_shape (l : List JVal) :
    ∀ ys, roundNums l = .ok ys → sameShape (.arr l) (.arr ys) = true := by
  induction l with
  | nil =>
    intro ys h
    simp only [roundNums, Except.ok.injEq] at h
    rw [← h]
    rfl
  | cons x xs ih =>
    intro ys h
    cases x with
    | arr a => simp [roundNums] at h
    | num q =>
      obtain ⟨ys', hr, rfl⟩ := roundNums_ok_cons q xs ys h
      simp only [sameShape, sameShapeList, Bool.and_eq_true]
      exact ⟨trivial, ih ys' hr⟩

theorem roundCoordsList_cons (x : JVal) (xs ys : List JVal)
    (h : roundCoordsList (x :: xs) = .ok ys) :
    ∃ y0 ytl, round_coords x = .ok y0 ∧ roundCoordsList xs = .ok ytl ∧ ys = y0 :: ytl := by
  simp only [roundCoordsList] at h
  cases hx : round_coords x with
  | error e => rw [hx] at h; simp at h
  | ok y0 =>
    rw [hx] at h
    cases htl : roundCoordsList xs with
    | error e => rw [htl] at h; simp at h
    | ok ytl =>
      rw [htl] at h
      simp only [Except.ok.injEq] at h
      exact ⟨y0, ytl, rfl, rfl, h.symm⟩

theorem roundCoordsList_cons_ok (x : JVal) (xs : List JVal) (y0 : JVal) (ytl : List JVal)
    (hx : round_coords x = .ok y0) (htl : roundCoordsList xs = .ok ytl) :
    roundCoordsList (x :: xs) = .ok (y0 :: ytl) := by
  simp [roundCoordsList, hx, htl]

theorem round_coords_ok_arr (es : List JVal) (y : JVal)
    (h : round_coords (.arr es) = .ok y) : ∃ zs, y = JVal.arr zs := by
  cases es with
  | nil => simp [round_coords] at h
  | cons c cs =>
    cases c with
    | num q =>
      simp only [round_coords] at h
      cases hr : roundNums (JVal.num q :: cs) with
      | error e => rw [hr] at h; simp [Except.map] at h
      | ok ys =>
        rw [hr] at h
        simp only [Except.map, Except.ok.injEq] at h
        exact ⟨ys, h.symm⟩
    | arr a =>
      simp only [round_coords] at h
      cases hr : roundCoordsList (JVal.arr a :: cs) with
      | error e => rw [hr] at h; simp [Except.map] at h
      | ok zs =>
        rw [hr] at h
        simp only [Except.map, Except.ok.injEq] at h
        exact ⟨zs, h.symm⟩

mutual

theorem round_coords_idem_aux (x : JVal) : ∀ y, round_coords x = .ok y →
    round_coords y = .ok y ∧ sameShape x y = true := by
  intro y h
  cases x with
  | num q => simp [round_coords] at h
  | arr es =>
    cases es with
    | nil => simp [round_coords] at h
    | cons c cs =>
      cases c with
      | num q =>
        simp only [round_coords] at h
        cases hr : roundNums (JVal.num q :: cs) with
        | error e => rw [hr] at h; simp [Except.map] at h
        | ok ys =>
          rw [hr] at h
          simp only [Except.map, Except.ok.injEq] at h
          subst h
          obtain ⟨ys', htl, hcons⟩ := roundNums_ok_cons q cs ys hr
          constructor
          · subst hcons
            simp only [round_coords]
            rw [roundNums_idem _ _ hr]
            rfl
          · exact roundNums_shape _ _ hr
      | arr a =>
        simp only [round_coords] at h
        cases hr : roundCoordsList (JVal.arr a :: cs) with
        | error e => rw [hr] at h; simp [Except.map] at h
        | ok zs =>
          rw [hr] at h
          simp only [Except.map, Except.ok.injEq] at h
          subst h
          have hrec := roundCoordsList_idem_aux (JVal.arr a :: cs) zs hr
          obtain ⟨y0, ytl, hy0, hytl, hcons⟩ := roundCoordsList_cons _ _ _ hr
          obtain ⟨b, hb⟩ := round_coords_ok_arr a y0 hy0
          refine ⟨?_, hrec.2⟩
          subst hcons
          subst hb
          simp only [round_coords]
          rw [hrec.1]
          rfl

theorem roundCoordsList_idem_aux (xs : List JVal) : ∀ ys, roundCoordsList xs = .ok ys →
    roundCoordsList ys = .ok ys ∧ sameShape (.arr xs) (.arr ys) = true := by
  intro ys h
  cases xs with
  | nil =>
    simp only [roundCoordsList, Except.ok.injEq] at h
    subst h
    exact ⟨rfl, rfl⟩
  | cons x xtl =>
    obtain ⟨y0, ytl, hx, htl, hcons⟩ := roundCoordsList_cons x xtl ys h
    subst hcons
    have hA := round_coords_idem_aux x y0 hx
    have hB := roundCoordsList_idem_aux xtl ytl htl
    constructor
    · exact roundCoordsList_cons_ok y0 ytl y0 ytl hA.1 hB.1
    · simp only [sameShape, sameShapeList, Bool.and_eq_true]
      exact ⟨hA.2, hB.2⟩

end

theorem tail_sublist_of_sublist_cons {α : Type} (s t : List α) (x : α)
    (h : List.Sublist s (x :: t)) : List.Sublist s.tail t := by
  cases s with
  | nil => exact List.nil_sublist t
  | cons y s' =>
    cases h with
    | cons _ h' => exact List.Sublist.trans (List.sublist_cons_self y s') h'
    | cons₂ _ h' => exact h'

theorem selectFarthest_eq (f : Coord → ℚ) :
    ∀ (l l1 : List Coord) (p : Coord) (l2 : List Coord),
      selectFarthest f l = some (l1, p, l2) → l = l1 ++ p :: l2 := by
  intro l
  induction l with
  | nil => intro l1 p l2 h; simp [selectFarthest] at h
  | cons x xs ih =>
    intro l1 p l2 h
    simp only [selectFarthest] at h
    cases hsel : selectFarthest f xs with
    | none =>
      rw [hsel] at h
      simp only [Option.some.injEq, Prod.mk.injEq] at h
      obtain ⟨h1, h2, h3⟩ := h
      subst h1; subst h2; subst h3
      have hnil : xs = [] := by
        cases xs with
        | nil => rfl
        | cons z zs =>
          exfalso
          simp only [selectFarthest] at hsel
          cases h2 : selectFarthest f zs with
          | none => rw [h2] at hsel; simp at hsel
          | some val =>
            rw [h2] at hsel
            obtain ⟨m1, q, m2⟩ := val
            by_cases hlt : f z < f q <;> simp [hlt] at hsel
      subst hnil
      rfl
    | some val =>
      rw [hsel] at h
      obtain ⟨m1, q, m2⟩ := val
      simp only [] at h
      by_cases hlt : f x < f q
      · rw [if_pos hlt] at h
        simp only [Option.some.injEq, Prod.mk.injEq] at h
        obtain ⟨h1, h2, h3⟩ := h
        subst h1; subst h2; subst h3
        rw [ih m1 q m2 hsel]
        rfl
      · rw [if_neg hlt] at h
        simp only [Option.some.injEq, Prod.mk.injEq] at h
        obtain ⟨h1, h2, h3⟩ := h
        subst h1; subst h2; subst h3
        rfl

theorem dpGo_sublist (tol2 : ℚ) :
    ∀ (fuel : ℕ) (pts : List Coord), List.Sublist (dpGo tol2 fuel pts) pts := by
  intro fuel
  induction fuel with
  | zero => intro pts; exact List.Sublist.refl pts
  | succ fuel ih =>
    intro pts
    match pts with
    | [] => exact List.Sublist.refl _
    | [p] => exact List.Sublist.refl _
    | [p, q] => exact List.Sublist.refl _
    | a :: c :: d :: tl =>
      have hne : (c :: d :: tl : List Coord) ≠ [] := by simp
      have hlastmem : (c :: d :: tl).getLast hne ∈ c :: d :: tl := List.getLast_mem hne
      have hpair : List.Sublist [a, (c :: d :: tl).getLast hne] (a :: c :: d :: tl) :=
        List.Sublist.cons₂ a (List.singleton_sublist.mpr hlastmem)
      simp only [dpGo]
      cases hsel : selectFarthest
          (dist2 a ((c :: d :: tl).getLast hne)) ((c :: d :: tl).dropLast) with
      | none => simp only []; exact hpair
      | some val =>
        obtain ⟨l1, p, l2⟩ := val
        simp only []
        have hmid : (c :: d :: tl).dropLast = l1 ++ p :: l2 :=
          selectFarthest_eq _ _ _ _ _ hsel
        by_cases hgt : tol2 < dist2 a ((c :: d :: tl).getLast hne) p
        · rw [if_pos hgt]
          have hA := ih (a :: (l1 ++ [p]))
          have hB := ih (p :: (l2 ++ [(c :: d :: tl).getLast hne]))
          have hBtail :
              List.Sublist (dpGo tol2 fuel (p :: (l2 ++ [(c :: d :: tl).getLast hne]))).tail
                (l2 ++ [(c :: d :: tl).getLast hne]) :=
            tail_sublist_of_sublist_cons _ _ _ hB
          have happ := List.Sublist.append hA hBtail
          have hshape : (a :: (l1 ++ [p])) ++ (l2 ++ [(c :: d :: tl).getLast hne])
              = a :: c :: d :: tl := by
            conv_rhs => rw [← List.dropLast_append_getLast hne]
            rw [hmid]
            simp
          rw [hshape] at happ
          exact happ
        · rw [if_neg hgt]
          exact hpair

theorem douglasPeucker_length_le (tol : ℚ) (pts : List Coord) :
    (douglasPeucker tol pts).length ≤ pts.length :=
  (dpGo_sublist (tol * tol) pts.length pts).length_le

theorem simplifyGeometry_count_le (tol : ℚ) (g : Geometry) :
    count_vertices (some (simplifyGeometry tol g)) ≤ count_vertices (some g) := by
  cases g with
  | point c => exact le_refl _
  | multiPoint pts => exact le_refl _
  | lineString coords => exact douglasPeucker_length_le tol coords
  | multiLineString lines =>
    simp only [simplifyGeometry, count_vertices, List.map_map]
    exact List.sum_le_sum (fun l _ => douglasPeucker_length_le tol l)
  | polygon exterior holes => exact douglasPeucker_length_le tol exterior
  | multiPolygon polys =>
    simp only [simplifyGeometry, count_vertices, List.map_map]
    exact List.sum_le_sum (fun poly _ => douglasPeucker_length_le tol poly.1)
  | other => exact le_refl _

theorem simplify_count_le_opt (tol : ℚ) (og : Option Geometry) :
    count_vertices (Option.map (simplifyGeometry tol) og) ≤ count_vertices og := by
  cases og with
  | none => exact le_refl _
  | some g => exact simplifyGeometry_count_le tol g

/-! ## Claims -/

/-- C1: after each backup call (deletions succeeding) the archive set for
the output path's stem has size at most 3; and after N ≥ 4 sequential
backup calls with distinct (strictly increasing) timestamps, starting from
an empty archive set, exactly the 3 most recently created archives remain
— the older ones having been deleted, oldest first. -/
theorem c1_backup_retention :
    (∀ (outputExists : Bool) (ts : ℕ) (archives res : List ℕ),
        archives.length ≤ 3 →
        backup_existing_file outputExists (fun _ => true) ts archives = .ok res →
        res.length ≤ 3) ∧
    ∀ tss : List ℕ, 4 ≤ tss.length → List.Pairwise (· < ·) tss →
      backupRun tss [] = tss.drop (tss.length - 3) ∧ (backupRun tss []).length = 3 := by
  constructor
  · intro outputExists ts archives res hlen hok
    cases outputExists with
    | false =>
      unfold backup_existing_file at hok
      rw [if_neg (by simp)] at hok
      cases hok
      exact hlen
    | true =>
      unfold backup_existing_file at hok
      rw [if_pos rfl] at hok
      simp only [deleteStale_true] at hok
      cases hok
      rw [List.length_drop]
      omega
  · intro tss hN hp
    have hrun := backupRun_strict tss hp
    refine ⟨hrun, ?_⟩
    rw [hrun, List.length_drop]
    omega

/-- Witness for C1 at concrete archives and a concrete 4-call run. -/
theorem c1_witness :
    ([2, 3, 5] : List ℕ).length ≤ 3 ∧
    backupRun [1, 2, 3, 4] [] = [1, 2, 3, 4].drop ([1, 2, 3, 4].length - 3) :=
  ⟨c1_backup_retention.1 true 5 [1, 2, 3] [2, 3, 5] (by decide) rfl,
   (c1_backup_retention.2 [1, 2, 3, 4] (by decide) (by decide)).1⟩

/-- C2: on every coordinate tree the rounding pass accepts, `round_coords`
is idempotent — rounding its own output returns that output unchanged —
and the output has exactly the input's nesting structure and element
ordering, only leaf numbers having been rewritten. -/
theorem c2_round_coords_idempotent (x y : JVal) (h : round_coords x = .ok y) :
    round_coords y = .ok y ∧ sameShape x y = true :=
  round_coords_idem_aux x y h

/-- Witness for C2 on a concrete nested coordinate array (one leaf, 1/3,
actually changes under 6-decimal rounding). -/
theorem c2_witness :
    round_coords
        (JVal.arr [JVal.arr [JVal.num (1/3), JVal.num 0],
                   JVal.arr [JVal.num (3/2), JVal.num 2]])
      = .ok (JVal.arr [JVal.arr [JVal.num (333333/1000000), JVal.num 0],
                       JVal.arr [JVal.num (3/2), JVal.num 2]]) ∧
    round_coords
        (JVal.arr [JVal.arr [JVal.num (333333/1000000), JVal.num 0],
                   JVal.arr [JVal.num (3/2), JVal.num 2]])
      = .ok (JVal.arr [JVal.arr [JVal.num (333333/1000000), JVal.num 0],
                       JVal.arr [JVal.num (3/2), JVal.num 2]]) ∧
    sameShape
        (JVal.arr [JVal.arr [JVal.num (1/3), JVal.num 0],
                   JVal.arr [JVal.num (3/2), JVal.num 2]])
        (JVal.arr [JVal.arr [JVal.num (333333/1000000), JVal.num 0],
                   JVal.arr [JVal.num (3/2), JVal.num 2]])
      = true := by
  have hx : round_coords
      (JVal.arr [JVal.arr [JVal.num (1/3), JVal.num 0],
                 JVal.arr [JVal.num (3/2), JVal.num 2]])
      = .ok (JVal.arr [JVal.arr [JVal.num (333333/1000000), JVal.num 0],
                       JVal.arr [JVal.num (3/2), JVal.num 2]]) := by
    norm_num [round_coords, roundCoordsList, roundNums, pyRound, roundHalfEven,
      PRECISION, Except.map]
  exact ⟨hx, c2_round_coords_idempotent _ _ hx⟩

/-- C3: `count_vertices` is a pure function from an optional geometry to a
natural number, returning 0 for null or unsupported geometries, 1 for a
Point, the member count for a MultiPoint, the coordinate count for a
LineString, the sum over member lines for a MultiLineString, the
exterior-ring count (holes excluded) for a Polygon, and the sum of
exterior-ring counts for a MultiPolygon. -/
theorem c3_count_vertices_spec :
    count_vertices none = 0 ∧
    count_vertices (some Geometry.other) = 0 ∧
    (∀ c, count_vertices (some (Geometry.point c)) = 1) ∧
    (∀ pts, count_vertices (some (Geometry.multiPoint pts)) = pts.length) ∧
    (∀ coords, count_vertices (some (Geometry.lineString coords)) = coords.length) ∧
    (∀ lines, count_vertices (some (Geometry.multiLineString lines))
        = (lines.map (fun l => count_vertices (some (Geometry.lineString l)))).sum) ∧
    (∀ exterior holes holes',
        count_vertices (some (Geometry.polygon exterior holes)) = exterior.length ∧
        count_vertices (some (Geometry.polygon exterior holes))
          = count_vertices (some (Geometry.polygon exterior holes'))) ∧
    (∀ polys, count_vertices (some (Geometry.multiPolygon polys))
        = (polys.map (fun poly => count_vertices (some (Geometry.polygon poly.1 poly.2)))).sum) := by
  refine ⟨rfl, rfl, fun _ => rfl, fun _ => rfl, fun _ => rfl, fun _ => rfl,
    fun _ _ _ => ⟨rfl, rfl⟩, fun _ => rfl⟩

/-- C6: for every feature collection and tolerance > 0, the aggregate
vertex count (as computed by `count_vertices`, summed over the geometry
column) after the simplification step is at most the aggregate count
before it — the modelled simplifier only ever retains a subsequence of
each path's vertices. -/
theorem c6_simplify_vertex_monotone (tol : ℚ) (geoms : List (Option Geometry))
    (_htol : 0 < tol) :
    totalVertices (simplifyAll tol geoms) ≤ totalVertices geoms := by
  unfold totalVertices simplifyAll
  rw [List.map_map]
  exact List.sum_le_sum (fun og _ => simplify_count_le_opt tol og)

/-- Witness for C6 at tolerance 1 on a concrete three-vertex line. -/
theorem c6_witness :
    totalVertices (simplifyAll 1 [some (Geometry.lineString [(0, 0), (0, 1), (5, 5)])])
      ≤ totalVertices [some (Geometry.lineString [(0, 0), (0, 1), (5, 5)])] :=
  c6_simplify_vertex_monotone 1 [some (Geometry.lineString [(0, 0), (0, 1), (5, 5)])]
    (by norm_num)

/-- C7: the reduction percentage of the simplification step is computed
only under the guard `original_vertices > 0`; when the aggregate pre-count
is zero the report is the no-op message (`none`), and whenever a
percentage is reported the divisor was positive. -/
theorem c7_reduction_guard :
    (∀ tol geoms, totalVertices geoms = 0 → simplifyReport tol geoms = none) ∧
    ∀ original simplified q, reductionReport original simplified = some q → 0 < original := by
  constructor
  · intro tol geoms h
    unfold simplifyReport reductionReport
    rw [h]
    simp
  · intro o s q h
    by_contra hc
    unfold reductionReport at h
    rw [if_neg hc] at h
    exact Option.noConfusion h

/-- Witness for C7 at a concrete empty collection. -/
theorem c7_witness : simplifyReport 1 [] = none :=
  c7_reduction_guard.1 1 [] rfl

/-- C8: `clean_attributes` drops every column whose name starts with a
double underscore; with a non-empty allow-list it keeps exactly the
geometry column plus the allow-listed columns actually present (and not
double-underscored), silently dropping all others; concretely, allow-list
`["name"]` on columns `geometry, name, extra` yields `geometry, name`. -/
theorem c8_clean_attributes_spec :
    (∀ keep cols col, col ∈ clean_attributes keep cols → startsWithDunder col = false) ∧
    (∀ keep cols, keep ≠ [] →
        clean_attributes keep cols
          = "geometry" ::
              keep.filter (fun col => col ∈ cols.filter (fun c => ¬ startsWithDunder c))) ∧
    clean_attributes ["name"] ["geometry", "name", "extra"] = ["geometry", "name"] := by
  refine ⟨?_, ?_, by decide⟩
  · intro keep cols col hmem
    unfold clean_attributes at hmem
    by_cases hk : keep.isEmpty
    · rw [if_pos hk] at hmem
      have := List.mem_filter.mp hmem
      simpa using this.2
    · rw [if_neg hk] at hmem
      rcases List.mem_cons.mp hmem with hg | hf
      · rw [hg]; rfl
      · have := List.mem_filter.mp hf
        have h2 := this.2
        simp only [decide_eq_true_eq] at h2
        have := List.mem_filter.mp h2
        simpa using this.2
  · intro keep cols hk
    cases keep with
    | nil => exact absurd rfl hk
    | cons k ks => rfl

/-- Witness for C8's allow-list clause at the concrete example input. -/
theorem c8_witness :
    clean_attributes ["name"] ["geometry", "name", "extra"]
      = "geometry" ::
          (["name"].filter
            (fun col =>
              col ∈ ["geometry", "name", "extra"].filter (fun c => ¬ startsWithDunder c))) :=
  c8_clean_attributes_spec.2.1 ["name"] ["geometry", "name", "extra"] (by simp)

/-- C9: a layer job whose source file is absent is marked failed (no
exception escapes `process_layer`, which is a total Boolean function);
jobs are processed independently, so the success tally of a run splits
over any decomposition of the job list; and the run's exit code is 0
exactly when every job succeeded. -/
theorem c9_orchestration :
    (∀ job : LayerJob, job.sourceExists = false → process_layer job = false) ∧
    (∀ js1 js2 : List LayerJob,
        successCount (js1 ++ js2) = successCount js1 + successCount js2) ∧
    ∀ jobs : List LayerJob, mainExit jobs = 0 ↔ ∀ job ∈ jobs, process_layer job = true := by
  refine ⟨?_, successCount_append, ?_⟩
  · intro job h
    unfold process_layer
    rw [h]
    simp
  · intro jobs
    unfold mainExit
    by_cases h : successCount jobs = jobs.length
    · simp only [if_pos h]
      exact ⟨fun _ => (successCount_eq_length_iff jobs).mp h, fun _ => trivial⟩
    · rw [if_neg h]
      simp only [Nat.one_ne_zero, false_iff]
      intro hall
      exact h ((successCount_eq_length_iff jobs).mpr hall)

/-- Witness for C9 at a concrete two-job run: the first job's source is
missing, so it fails; the run exit code is 1; the tally still counts the
second job. -/
theorem c9_witness :
    process_layer ⟨false, .ok ()⟩ = false ∧
    successCount ([⟨false, .ok ()⟩] ++ [⟨true, .ok ()⟩])
      = successCount [⟨false, .ok ()⟩] + successCount [⟨true, .ok ()⟩] ∧
    (mainExit [⟨true, .ok ()⟩] = 0 ↔ ∀ job ∈ [(⟨true, .ok ()⟩ : LayerJob)], process_layer job = true) :=
  ⟨c9_orchestration.1 ⟨false, .ok ()⟩ rfl,
   c9_orchestration.2.1 [⟨false, .ok ()⟩] [⟨true, .ok ()⟩],
   c9_orchestration.2.2 [⟨true, .ok ()⟩]⟩

/-- C10: the post-serialization rounding pass is partial — on a feature
with a null geometry it raises `TypeError` (subscripting `None`), on an
empty coordinates array it raises `IndexError` (`coords[0]`), and in
either case the exception fails the layer job. -/
theorem c10_round_pass_partial :
    roundPass [none] = .error "TypeError: NoneType object is not subscriptable" ∧
    roundPass [some (JVal.arr [])] = .error "IndexError: list index out of range" ∧
    process_layer ⟨true, (roundPass [none]).map (fun _ => ())⟩ = false ∧
    process_layer ⟨true, (roundPass [some (JVal.arr [])]).map (fun _ => ())⟩ = false :=
  ⟨rfl, rfl, rfl, rfl⟩

/-- C4 counterexample: on a collection holding one invalid (bowtie)
polygon and one valid line, the repair step rewrites the valid line as
well (the zero-buffer is assigned to the whole geometry column), so a
feature with an already-valid geometry does not keep its geometry. -/
theorem c4_counterexample :
    exIsValid (Geometry.lineString [(0, 0), (1, 1)]) = true ∧
    validate_and_fix_geometries exIsValid exBuffer0
        [Geometry.polygon [(0, 0), (1, 1), (1, 0), (0, 1), (0, 0)] [],
         Geometry.lineString [(0, 0), (1, 1)]]
      = [Geometry.polygon [(0, 0), (1, 1), (1, 0), (0, 1), (0, 0)] [],
         Geometry.polygon [] []] ∧
    Geometry.polygon [] [] ≠ Geometry.lineString [(0, 0), (1, 1)] := by
  refine ⟨rfl, rfl, ?_⟩
  intro h
  exact Geometry.noConfusion h

/-- C4 as amended: when at least one geometry of the collection is
invalid, the repair step applies the fix-up to every geometry of the
collection (valid ones included); only when all geometries are valid is
the collection returned unchanged. -/
theorem c4_amended (isValid : Geometry → Bool) (buffer0 : Geometry → Geometry)
    (gdf : List Geometry) :
    ((∃ g ∈ gdf, isValid g = false) →
        validate_and_fix_geometries isValid buffer0 gdf = gdf.map buffer0) ∧
    ((∀ g ∈ gdf, isValid g = true) →
        validate_and_fix_geometries isValid buffer0 gdf = gdf) := by
  constructor
  · rintro ⟨g, hg, hv⟩
    unfold validate_and_fix_geometries
    have hmem : g ∈ gdf.filter (fun g => ¬ isValid g) :=
      List.mem_filter.mpr ⟨hg, by simp [hv]⟩
    have hpos : 0 < (gdf.filter (fun g => ¬ isValid g)).length :=
      List.length_pos_of_mem hmem
    rw [if_pos hpos]
  · intro hall
    unfold validate_and_fix_geometries
    have hnil : gdf.filter (fun g => ¬ isValid g) = [] := by
      rw [List.filter_eq_nil_iff]
      intro g hg
      simp [hall g hg]
    rw [hnil]
    simp

/-- Witness for C4's amended statement: both branches at concrete inputs. -/
theorem c4_witness :
    validate_and_fix_geometries exIsValid exBuffer0
        [Geometry.polygon [(0, 0), (0, 0)] [], Geometry.lineString [(0, 0), (1, 1)]]
      = [Geometry.polygon [(0, 0), (0, 0)] [], Geometry.lineString [(0, 0), (1, 1)]].map exBuffer0
    ∧ validate_and_fix_geometries exIsValid exBuffer0 [Geometry.point (0, 0)]
      = [Geometry.point (0, 0)] :=
  ⟨(c4_amended exIsValid exBuffer0 _).1
      ⟨Geometry.polygon [(0, 0), (0, 0)] [], List.mem_cons_self _ _, rfl⟩,
   (c4_amended exIsValid exBuffer0 _).2
      (by intro g hg; rcases List.mem_singleton.mp hg with rfl; rfl)⟩

/-- C5 counterexample: with four archives on disk, a fifth backup call
whose stale-deletion `unlink` fails raises out of `backup_existing_file`;
the exception is caught at the job boundary and the job is marked failed
even though every other stage would have succeeded — a stale-backup
deletion failure does fail the layer job. -/
theorem c5_counterexample :
    process_layer
        ⟨true, layerBodyWithBackup true (fun _ => false) 4 [0, 1, 2, 3] (.ok ())⟩
      = false := rfl

/-- C5 as amended: a failed stale-backup deletion raises out of the backup
step; the exception is caught at the per-job boundary (so the run
continues), but the layer job is marked failed, whatever the remaining
stages would have done. -/
theorem c5_amended (unlinkOk : ℕ → Bool) (ts : ℕ) (archives : List ℕ)
    (rest : Except String Unit) (b : ℕ)
    (h : backup_existing_file true unlinkOk ts archives = .error b) :
    process_layer ⟨true, layerBodyWithBackup true unlinkOk ts archives rest⟩ = false := by
  unfold process_layer layerBodyWithBackup
  rw [h]
  simp

/-- Witness for C5's amended statement at a concrete failing deletion. -/
theorem c5_witness :
    process_layer
        ⟨true, layerBodyWithBackup true (fun _ => false) 14 [10, 11, 12, 13] (.error "io")⟩
      = false :=
  c5_amended (fun _ => false) 14 [10, 11, 12, 13] (.error "io") 10 rfl

end WebSig
